import Mathlib

/-!
# Verification of the invoicepilot authentication-and-delivery pipeline

Shallow embedding, in Lean 4, of the parts of the `invoicepilot` Rust
repository that the checked claims are about:

* `src/auth/oauth.rs` — `TokenCache::is_expired`
* `src/process/jobs.rs` — `determine_billing_month`
* `src/scheduler/runner.rs` — `parse_date_range`
* `src/gmail/search.rs` — `search_invoices`
* `src/gmail/attachment.rs` — `find_attachments`, `detect_bank_name`,
  the base64 decode fallback chain of `download_attachment`
* `src/drive/folder.rs` — `find_or_create_folder`
* `src/drive/upload.rs` — `upload_files` / `UploadSummary`

Dates are embedded as proleptic-Gregorian `year/month/day` triples with
year ≥ 1 (the claims only involve positive years); chrono's day
arithmetic is embedded by a day-number function `dayNumber` that is
strictly monotone on valid dates, so that `NaiveDate` subtraction
`(a - b).num_days()` becomes `(dayNumber a : Int) - dayNumber b`.
-/

namespace InvoicePilot

/-! ## Date model (embedding of `chrono::NaiveDate` as used by the repo) -/

structure Date where
  year : Nat
  month : Nat
  day : Nat
deriving DecidableEq, Repr

/-- Gregorian leap-year rule (chrono's). -/
def isLeapYear (y : Nat) : Bool :=
  y % 4 == 0 && (y % 100 != 0 || y % 400 == 0)

/-- Length of month `m` given the leap flag of its year. -/
def monthLength (leap : Bool) (m : Nat) : Nat :=
  match m with
  | 1 => 31 | 2 => if leap then 29 else 28
  | 3 => 31 | 4 => 30 | 5 => 31 | 6 => 30 | 7 => 31 | 8 => 31
  | 9 => 30 | 10 => 31 | 11 => 30 | 12 => 31
  | _ => 0

/-- Length of month `m` of year `y`. -/
def daysInMonth (y m : Nat) : Nat := monthLength (isLeapYear y) m

/-- Days of year `y` that precede the first day of month `m`. -/
def daysBeforeMonth (leap : Bool) (m : Nat) : Nat :=
  (match m with
   | 1 => 0 | 2 => 31 | 3 => 59 | 4 => 90 | 5 => 120 | 6 => 151
   | 7 => 181 | 8 => 212 | 9 => 243 | 10 => 273 | 11 => 304 | _ => 334) +
  (if leap && 3 ≤ m then 1 else 0)

/-- Number of leap years strictly before year `y` (years `1..y-1`). -/
def leapCount (y : Nat) : Nat :=
  (y - 1) / 4 + (y - 1) / 400 - (y - 1) / 100

/-- Day number of a date: the count of days from `0001-01-01` (day 0).
Chrono's `NaiveDate` subtraction `(a - b).num_days()` is
`(dayNumber a : Int) - dayNumber b`. -/
def dayNumber (d : Date) : Nat :=
  365 * (d.year - 1) + leapCount d.year +
    daysBeforeMonth (isLeapYear d.year) d.month + (d.day - 1)

/-- A calendar-valid date with positive year, as accepted by
`NaiveDate::from_ymd_opt`. -/
def ValidDate (d : Date) : Prop :=
  1 ≤ d.year ∧ 1 ≤ d.month ∧ d.month ≤ 12 ∧ 1 ≤ d.day ∧
    d.day ≤ daysInMonth d.year d.month

instance (d : Date) : Decidable (ValidDate d) := by
  unfold ValidDate; infer_instance

/-- Chrono's `Ord` on `NaiveDate`: lexicographic on (year, month, day). -/
def dateLe (a b : Date) : Bool :=
  a.year < b.year ||
    (a.year == b.year &&
      (a.month < b.month || (a.month == b.month && a.day ≤ b.day)))

/-- Strict version of `dateLe`. -/
def dateLt (a b : Date) : Bool :=
  a.year < b.year ||
    (a.year == b.year &&
      (a.month < b.month || (a.month == b.month && a.day < b.day)))

/-- `chrono::Month::name()` for month numbers 1–12. -/
def monthName (m : Nat) : String :=
  match m with
  | 1 => "January" | 2 => "February" | 3 => "March" | 4 => "April"
  | 5 => "May" | 6 => "June" | 7 => "July" | 8 => "August"
  | 9 => "September" | 10 => "October" | 11 => "November" | 12 => "December"
  | _ => ""

/-! ## `TokenCache` (src/auth/oauth.rs) -/

structure TokenCache where
  access_token : String
  refresh_token : Option String
  expires_at : Option Int

/-- `TokenCache::is_expired` (src/auth/oauth.rs:29-37).  The current
time `chrono::Utc::now().timestamp()` is passed explicitly as `now`. -/
def TokenCache.is_expired (tc : TokenCache) (now : Int) : Bool :=
  match tc.expires_at with
  | some expiresAt => decide (now ≥ expiresAt - 300)
  | none => false

/-! ## `determine_billing_month` (src/process/jobs.rs:154-170) -/

def determine_billing_month (start_date end_date : Date) : String :=
  let start_month := start_date.month
  let end_month := end_date.month
  if start_month = end_month then
    monthName end_month
  else
    let days_in_end_month : Int :=
      ((dayNumber end_date : Int) -
        dayNumber ⟨end_date.year, end_date.month, 1⟩) + 1
    let total_days : Int :=
      ((dayNumber end_date : Int) - dayNumber start_date) + 1
    if days_in_end_month < 15 ∧ total_days > 20 then
      monthName start_month
    else
      monthName end_month

/-! ## `parse_date_range` (src/scheduler/runner.rs:39-57)

Strings are manipulated through their character lists so that every
definition evaluates inside the kernel.  `splitChar` is Rust's
`str::split(sep)` for a one-character separator, which is also how the
`':'` split of `parse_date_range` and the `'-'` splits inside chrono's
`"%Y-%m-%d"` parsing behave. -/

def splitChar (sep : Char) : List Char → List (List Char)
  | [] => [[]]
  | c :: cs =>
    if c = sep then [] :: splitChar sep cs
    else
      match splitChar sep cs with
      | [] => [[c]]
      | g :: gs => (c :: g) :: gs

/-- Decimal value of a digit string. -/
def digitsToNat (cs : List Char) : Nat :=
  cs.foldl (fun a c => 10 * a + (c.toNat - 48)) 0

/-- `chrono::NaiveDate::from_ymd_opt`: `some` exactly on calendar-valid
dates (model restricted to years ≥ 1; the claims use none other). -/
def from_ymd_opt (y m d : Nat) : Option Date :=
  if 1 ≤ y ∧ 1 ≤ m ∧ m ≤ 12 ∧ 1 ≤ d ∧ d ≤ daysInMonth y m then
    some ⟨y, m, d⟩
  else none

/-- Model of `chrono::NaiveDate::parse_from_str(s, "%Y-%m-%d")`: three
dash-separated decimal fields (month and day at most two digits, as the
`%m`/`%d` numeric items read at most two), validated by `from_ymd_opt`. -/
def parse_ymd (s : String) : Option Date :=
  match splitChar '-' s.toList with
  | [ys, ms, ds] =>
    if ys ≠ [] ∧ ys.all Char.isDigit ∧
        ms ≠ [] ∧ ms.length ≤ 2 ∧ ms.all Char.isDigit ∧
        ds ≠ [] ∧ ds.length ≤ 2 ∧ ds.all Char.isDigit then
      from_ymd_opt (digitsToNat ys) (digitsToNat ms) (digitsToNat ds)
    else none
  | _ => none

/-- `parse_date_range` (src/scheduler/runner.rs:39-57): split on `':'`,
require exactly two parts, parse both as `%Y-%m-%d`, reject `end < start`. -/
def parse_date_range (range_str : String) : Except String (Date × Date) :=
  match (splitChar ':' range_str.toList).map String.mk with
  | [p1, p2] =>
    match parse_ymd p1 with
    | none => .error "Invalid start date"
    | some start_date =>
      match parse_ymd p2 with
      | none => .error "Invalid end date"
      | some end_date =>
        if dateLt end_date start_date then
          .error "End date must be after start date"
        else
          .ok (start_date, end_date)
  | _ => .error "Date range must be in format YYYY-MM-DD:YYYY-MM-DD"

/-! ## Day-number arithmetic

`dayNumber` is strictly monotone on valid dates; these lemmas justify
replacing chrono's `NaiveDate` subtraction with day-number differences. -/

theorem dayNumber_day_shift (y m d : Nat) :
    dayNumber ⟨y, m, d⟩ = dayNumber ⟨y, m, 1⟩ + (d - 1) := by
  simp only [dayNumber]
  omega

theorem leapCount_mono {y y' : Nat} (h : y ≤ y') : leapCount y ≤ leapCount y' := by
  unfold leapCount
  omega

theorem leapCount_succ (y : Nat) (hy : 1 ≤ y) :
    leapCount (y + 1) = leapCount y + (if isLeapYear y then 1 else 0) := by
  cases hL : isLeapYear y with
  | true =>
    have h : y % 4 = 0 ∧ (y % 100 ≠ 0 ∨ y % 400 = 0) := by
      simpa [isLeapYear, Bool.and_eq_true, beq_iff_eq, Bool.or_eq_true,
        bne_iff_ne] using hL
    unfold leapCount
    simp only [if_true]
    norm_num
    omega
  | false =>
    have h : ¬(y % 4 = 0 ∧ (y % 100 ≠ 0 ∨ y % 400 = 0)) := by
      intro hc
      have : isLeapYear y = true := by
        simp [isLeapYear, Bool.and_eq_true, beq_iff_eq, Bool.or_eq_true,
          bne_iff_ne]
        tauto
      simp [hL] at this
    unfold leapCount
    simp only [Bool.false_eq_true, if_false]
    omega

theorem daysBeforeMonth_step :
    ∀ (L : Bool), ∀ m' < 13, ∀ m < m', 1 ≤ m →
      daysBeforeMonth L m + monthLength L m ≤ daysBeforeMonth L m' := by
  decide

theorem monthLength_year_bound :
    ∀ (L : Bool), ∀ m < 13,
      daysBeforeMonth L m + monthLength L m ≤ 365 + (if L then 1 else 0) := by
  decide

theorem monthLength_pos : ∀ (L : Bool), ∀ m < 13, 1 ≤ m → 1 ≤ monthLength L m := by
  decide

theorem daysBeforeMonth_one (L : Bool) : daysBeforeMonth L 1 = 0 := by
  cases L <;> rfl

theorem daysBeforeMonth_twelve (L : Bool) :
    daysBeforeMonth L 12 = 334 + (if L then 1 else 0) := by
  cases L <;> rfl

theorem dayNumber_le_year_end (a : Date) (ha : ValidDate a) :
    dayNumber a ≤ dayNumber ⟨a.year, 12, 31⟩ := by
  obtain ⟨h1, h2, h3, h4, h5⟩ := ha
  have hb := monthLength_year_bound (isLeapYear a.year) a.month (by omega)
  simp only [daysInMonth] at h5
  simp only [dayNumber, daysBeforeMonth_twelve]
  cases hL : isLeapYear a.year <;> rw [hL] at hb h5 <;>
    simp only [if_pos rfl, Bool.false_eq_true, if_false] at hb ⊢ <;> omega

theorem dayNumber_year_step (y : Nat) (hy : 1 ≤ y) :
    dayNumber ⟨y, 12, 31⟩ < dayNumber ⟨y + 1, 1, 1⟩ := by
  have hs := leapCount_succ y hy
  simp only [dayNumber, daysBeforeMonth_twelve, daysBeforeMonth_one]
  cases hL : isLeapYear y <;> rw [hL] at hs <;> simp_all <;> omega

theorem dayNumber_year_mono {y y' : Nat} (h : y ≤ y') :
    dayNumber ⟨y, 1, 1⟩ ≤ dayNumber ⟨y', 1, 1⟩ := by
  have := leapCount_mono h
  simp only [dayNumber, daysBeforeMonth_one]
  omega

theorem dayNumber_year_start_le (b : Date) :
    dayNumber ⟨b.year, 1, 1⟩ ≤ dayNumber b := by
  simp only [dayNumber, daysBeforeMonth_one]
  omega

/-- `dayNumber` is monotone with respect to calendar order on valid dates. -/
theorem dayNumber_mono (a b : Date) (ha : ValidDate a) (hb : ValidDate b)
    (h : dateLe a b = true) : dayNumber a ≤ dayNumber b := by
  simp only [dateLe, Bool.or_eq_true, Bool.and_eq_true, beq_iff_eq,
    decide_eq_true_eq] at h
  obtain ⟨ha1, ha2, ha3, ha4, ha5⟩ := ha
  obtain ⟨hb1, hb2, hb3, hb4, hb5⟩ := hb
  rcases h with hy | ⟨hy, hm | ⟨hm, hd⟩⟩
  · -- strictly earlier year
    have s1 : dayNumber a ≤ dayNumber ⟨a.year, 12, 31⟩ :=
      dayNumber_le_year_end a ⟨ha1, ha2, ha3, ha4, ha5⟩
    have s2 : dayNumber ⟨a.year, 12, 31⟩ < dayNumber ⟨a.year + 1, 1, 1⟩ :=
      dayNumber_year_step a.year ha1
    have s3 : dayNumber ⟨a.year + 1, 1, 1⟩ ≤ dayNumber ⟨b.year, 1, 1⟩ :=
      dayNumber_year_mono (by omega)
    have s4 : dayNumber ⟨b.year, 1, 1⟩ ≤ dayNumber b := dayNumber_year_start_le b
    omega
  · -- same year, strictly earlier month
    have hstep := daysBeforeMonth_step (isLeapYear b.year) b.month (by omega)
      a.month hm ha2
    simp only [daysInMonth] at ha5
    rw [hy] at ha5
    simp only [dayNumber, hy]
    omega
  · -- same year and month
    simp only [dayNumber, hy, hm]
    omega

/-! ## Claim-side billing-month definition

`spec_billing_month` follows the words of claim C2: a same-calendar-month
range is labelled by that month; otherwise the start month's name is used
exactly when the number of days of the range falling in the end month
(the days of `[start, end]` from the first day of end's calendar month
on, i.e. `dayNumber end + 1 - max (dayNumber start) (dayNumber fom)`)
is under 15 and the inclusive total span exceeds 20 days. -/

def spec_billing_month (s e : Date) : String :=
  if s.year = e.year ∧ s.month = e.month then
    monthName e.month
  else
    let daysInEnd : Int :=
      (dayNumber e : Int) + 1 -
        max (dayNumber s : Int) ((dayNumber ⟨e.year, e.month, 1⟩ : Nat) : Int)
    let span : Int := (dayNumber e : Int) - (dayNumber s : Int) + 1
    if daysInEnd < 15 ∧ span > 20 then monthName s.month else monthName e.month

/-! ## Claim theorems: C1, C2, C8, C10 -/

/-- C1: For every `TokenCache` whose `expires_at` is `some e`,
`is_expired` returns `true` iff the current time `now` satisfies
`now ≥ e - 300`; with `expires_at = none` it returns `false`. -/
theorem is_expired_spec (tok : String) (rt : Option String) (e now : Int) :
    (TokenCache.is_expired ⟨tok, rt, some e⟩ now = true ↔ now ≥ e - 300) ∧
    TokenCache.is_expired ⟨tok, rt, none⟩ now = false :=
  ⟨by simp [TokenCache.is_expired], rfl⟩

/-- C2: For every valid date range (start ≤ end), `determine_billing_month`
agrees with the claim's description `spec_billing_month`: a same-calendar-month
range is labelled by the end month's name; otherwise the start month's name is
returned exactly when the days of the range falling in the end month are under
15 and the inclusive span exceeds 20 days, else the end month's name; in
particular 2024-09-01..2024-10-05 yields "September" and
2024-09-20..2024-10-25 yields "October". -/
theorem determine_billing_month_spec (s e : Date) (hs : ValidDate s)
    (he : ValidDate e) (hle : dateLe s e = true) :
    determine_billing_month s e = spec_billing_month s e ∧
    determine_billing_month ⟨2024, 9, 1⟩ ⟨2024, 10, 5⟩ = "September" ∧
    determine_billing_month ⟨2024, 9, 20⟩ ⟨2024, 10, 25⟩ = "October" := by
  refine ⟨?_, by decide, by decide⟩
  by_cases hm : s.month = e.month
  · by_cases hy : s.year = e.year
    · simp [determine_billing_month, spec_billing_month, hm, hy]
    · have hname : monthName s.month = monthName e.month := by rw [hm]
      simp [determine_billing_month, spec_billing_month, hm, hy, hname]
  · have hy : ¬(s.year = e.year ∧ s.month = e.month) := fun hc => hm hc.2
    have hfom_valid : ValidDate ⟨e.year, e.month, 1⟩ := by
      obtain ⟨h1, h2, h3, h4, h5⟩ := he
      refine ⟨h1, h2, h3, le_refl 1, ?_⟩
      exact monthLength_pos (isLeapYear e.year) e.month (by omega) h2
    have hsfom : dayNumber s ≤ dayNumber ⟨e.year, e.month, 1⟩ := by
      apply dayNumber_mono s _ hs hfom_valid
      simp only [dateLe, Bool.or_eq_true, Bool.and_eq_true, beq_iff_eq,
        decide_eq_true_eq] at hle ⊢
      omega
    simp only [determine_billing_month, spec_billing_month]
    rw [if_neg hm, if_neg hy]
    apply if_congr ?_ rfl rfl
    omega

/-- Witness for `determine_billing_month_spec` at the range
2024-09-01..2024-10-05. -/
theorem determine_billing_month_spec_witness :
    determine_billing_month ⟨2024, 9, 1⟩ ⟨2024, 10, 5⟩ =
      spec_billing_month ⟨2024, 9, 1⟩ ⟨2024, 10, 5⟩ :=
  (determine_billing_month_spec ⟨2024, 9, 1⟩ ⟨2024, 10, 5⟩ (by decide)
    (by decide) (by decide)).1

/-- C8: `parse_date_range "2024-09-01:2024-10-12"` returns the pair
(2024-09-01, 2024-10-12); an input whose end date is strictly before its
start date is rejected, and an input that does not split on `':'` into
exactly two parts is rejected. -/
theorem parse_date_range_spec :
    (parse_date_range "2024-09-01:2024-10-12" =
      .ok (⟨2024, 9, 1⟩, ⟨2024, 10, 12⟩)) ∧
    (∀ (srange : String) (p1 p2 : List Char) (d1 d2 : Date),
      splitChar ':' srange.toList = [p1, p2] →
      parse_ymd (String.mk p1) = some d1 →
      parse_ymd (String.mk p2) = some d2 →
      dateLt d2 d1 = true →
      ∃ msg, parse_date_range srange = .error msg) ∧
    (∀ srange : String, (splitChar ':' srange.toList).length ≠ 2 →
      ∃ msg, parse_date_range srange = .error msg) := by
  refine ⟨by rfl, ?_, ?_⟩
  · intro srange p1 p2 d1 d2 hsplit h1 h2 hlt
    refine ⟨"End date must be after start date", ?_⟩
    unfold parse_date_range
    rw [hsplit]
    simp only [List.map]
    rw [h1, h2]
    simp [hlt]
  · intro srange hlen
    unfold parse_date_range
    generalize hq : splitChar ':' srange.toList = q at hlen
    match q, hlen with
    | [], _ => exact ⟨_, rfl⟩
    | [a], _ => exact ⟨_, rfl⟩
    | [a, b], hlen => simp at hlen
    | a :: b :: c :: t, _ => exact ⟨_, rfl⟩

/-- Witness for `parse_date_range_spec`: the reversed range and the
one-part range are both rejected. -/
theorem parse_date_range_spec_witness :
    (∃ msg, parse_date_range "2024-10-12:2024-09-01" = .error msg) ∧
    (∃ msg, parse_date_range "2024-09-01" = .error msg) :=
  ⟨parse_date_range_spec.2.1 "2024-10-12:2024-09-01"
      ("2024-10-12".toList) ("2024-09-01".toList)
      ⟨2024, 10, 12⟩ ⟨2024, 9, 1⟩ (by decide) rfl rfl (by decide),
    parse_date_range_spec.2.2 "2024-09-01" (by decide)⟩

/-- C10: `determine_billing_month` compares only month numbers, ignoring
years: whenever start and end share the month number — even across
different years, e.g. 2023-10-01..2024-10-12 — it takes the same-month
branch and returns that month's name without examining the span. -/
theorem determine_billing_month_ignores_year (s e : Date)
    (h : s.month = e.month) :
    determine_billing_month s e = monthName e.month ∧
    determine_billing_month ⟨2023, 10, 1⟩ ⟨2024, 10, 12⟩ = "October" :=
  ⟨by simp [determine_billing_month, h], by decide⟩

/-- Witness for `determine_billing_month_ignores_year` at
2023-10-01..2024-10-12. -/
theorem determine_billing_month_ignores_year_witness :
    determine_billing_month ⟨2023, 10, 1⟩ ⟨2024, 10, 12⟩ = monthName 10 :=
  (determine_billing_month_ignores_year ⟨2023, 10, 1⟩ ⟨2024, 10, 12⟩ rfl).1

/-! ## Gmail message parts (src/gmail/client.rs) and
`find_attachments` (src/gmail/attachment.rs:152-172) -/

structure MessageHeader where
  name : String
  value : String

structure MessagePartBody where
  attachment_id : Option String
  data : Option String
  size : Option Nat

inductive MessagePart where
  | mk (parts : Option (List MessagePart)) (body : Option MessagePartBody)
      (mime_type : Option String) (filename : Option String)
      (headers : Option (List MessageHeader)) : MessagePart

def MessagePart.parts : MessagePart → Option (List MessagePart)
  | .mk p _ _ _ _ => p

def MessagePart.body : MessagePart → Option MessagePartBody
  | .mk _ b _ _ _ => b

def MessagePart.filename : MessagePart → Option String
  | .mk _ _ _ f _ => f

def MessagePart.headers : MessagePart → Option (List MessageHeader)
  | .mk _ _ _ _ h => h

mutual

/-- `find_attachments` (src/gmail/attachment.rs:152-172): the Rust code
pushes onto a `&mut Vec`; the embedding returns the pushed pairs, own
part first, then the child parts in order. -/
def find_attachments : MessagePart → List (String × String)
  | .mk parts body _ filename _ =>
    (match filename with
     | some f =>
       if f ≠ "" then
         match body with
         | some b =>
           match b.attachment_id with
           | some aid => [(f, aid)]
           | none => []
         | none => []
       else []
     | none => []) ++
    (match parts with
     | some ps => find_attachments_list ps
     | none => [])

/-- The `for child_part in parts` loop of `find_attachments`. -/
def find_attachments_list : List MessagePart → List (String × String)
  | [] => []
  | p :: ps => find_attachments p ++ find_attachments_list ps

end

mutual

/-- Claim-side: the part tree in depth-first preorder. -/
def preorderParts : MessagePart → List MessagePart
  | .mk parts body mt fn hd =>
    .mk parts body mt fn hd ::
      (match parts with
       | some ps => preorderPartsList ps
       | none => [])

/-- Preorder of a forest of parts. -/
def preorderPartsList : List MessagePart → List MessagePart
  | [] => []
  | p :: ps => preorderParts p ++ preorderPartsList ps

end

/-- Claim-side: the (filename, attachment id) pair of a part that has a
non-empty filename and an attachment id; `none` otherwise. -/
def attachmentEntry (p : MessagePart) : Option (String × String) :=
  match p.filename with
  | some f =>
    if f ≠ "" then
      match p.body with
      | some b =>
        match b.attachment_id with
        | some aid => some (f, aid)
        | none => none
      | none => none
    else none
  | none => none

/-- Claim-side: fold `attachmentEntry` over a part list, keeping the
`some` entries in order. -/
def collectEntries : List MessagePart → List (String × String)
  | [] => []
  | p :: rest =>
    match attachmentEntry p with
    | some pr => pr :: collectEntries rest
    | none => collectEntries rest

theorem collectEntries_eq_filterMap (l : List MessagePart) :
    collectEntries l = l.filterMap attachmentEntry := by
  induction l with
  | nil => rfl
  | cons p rest ih =>
    simp only [collectEntries, List.filterMap_cons, ih]
    cases attachmentEntry p <;> rfl

theorem find_attachments_eq_aux :
    ∀ n : Nat,
      (∀ p : MessagePart, sizeOf p ≤ n →
        find_attachments p = collectEntries (preorderParts p)) ∧
      (∀ ps : List MessagePart, sizeOf ps ≤ n →
        find_attachments_list ps = collectEntries (preorderPartsList ps)) := by
  intro n
  induction n with
  | zero =>
    constructor
    · intro p hp
      exfalso
      obtain ⟨parts, body, mt, fn, hd⟩ := p
      simp at hp
    · intro ps hps
      exfalso
      cases ps <;> simp at hps
  | succ n ih =>
    constructor
    · intro p hp
      obtain ⟨parts, body, mt, fn, hd⟩ := p
      cases parts with
      | none =>
        cases fn with
        | none =>
          simp [find_attachments, preorderParts, collectEntries,
            attachmentEntry, MessagePart.filename]
        | some f =>
          by_cases hf : f = "" <;>
            cases body with
            | none =>
              simp [find_attachments, preorderParts, collectEntries,
                attachmentEntry, MessagePart.filename, MessagePart.body, hf]
            | some b =>
              cases haid : b.attachment_id <;>
                simp [find_attachments, preorderParts, collectEntries,
                  attachmentEntry, MessagePart.filename, MessagePart.body,
                  hf, haid]
      | some ps =>
        have hps : sizeOf ps ≤ n := by simp at hp; omega
        have hih := ih.2 ps hps
        cases fn with
        | none =>
          simp [find_attachments, preorderParts, collectEntries,
            attachmentEntry, MessagePart.filename, hih]
        | some f =>
          by_cases hf : f = "" <;>
            cases body with
            | none =>
              simp [find_attachments, preorderParts, collectEntries,
                attachmentEntry, MessagePart.filename, MessagePart.body,
                hf, hih]
            | some b =>
              cases haid : b.attachment_id <;>
                simp [find_attachments, preorderParts, collectEntries,
                  attachmentEntry, MessagePart.filename, MessagePart.body,
                  hf, haid, hih]
    · intro ps hps
      cases ps with
      | nil => rfl
      | cons p rest =>
        have h1 : sizeOf p ≤ n := by simp at hps; omega
        have h2 : sizeOf rest ≤ n := by simp at hps; omega
        have e1 := ih.1 p h1
        have e2 := ih.2 rest h2
        simp only [find_attachments_list, preorderPartsList, e1, e2]
        generalize preorderParts p = l1
        generalize preorderPartsList rest = l2
        induction l1 with
        | nil => rfl
        | cons q qs ihq =>
          simp only [List.cons_append, collectEntries]
          cases attachmentEntry q <;> simp [ihq]

/-- C5: the recursive part-walk `find_attachments` collects exactly the
(filename, attachment id) pairs of parts having both a non-empty filename
and an attachment id, at any nesting depth, in depth-first preorder;
parts lacking an attachment id or an empty/absent filename are excluded. -/
theorem find_attachments_spec (p : MessagePart) :
    find_attachments p = (preorderParts p).filterMap attachmentEntry := by
  rw [← collectEntries_eq_filterMap]
  exact (find_attachments_eq_aux (sizeOf p)).1 p (le_refl _)

/-! ## Bank classification (src/gmail/attachment.rs:229-345) -/

structure Message where
  id : String
  payload : Option MessagePart

/-- Unicode-lowercase a string (ASCII model of Rust `to_lowercase`,
adequate for the ASCII pattern list and header names). -/
def lowerStr (s : String) : String := String.mk (s.toList.map Char.toLower)

/-- Rust `str::contains(pat)`: substring containment. -/
def containsSubstring (hay needle : List Char) : Bool :=
  match hay with
  | [] => needle.isEmpty
  | _ :: t => needle.isPrefixOf hay || containsSubstring t needle

/-- `str::contains` on strings. -/
def str_contains (hay needle : String) : Bool :=
  containsSubstring hay.toList needle.toList

/-- `extract_search_text` (src/gmail/attachment.rs:248-273): the values
of the From and Subject headers (each followed by a space), then the raw
payload body data, all lowercased. -/
def extract_search_text (message : Message) : String :=
  lowerStr
    (match message.payload with
     | some payload =>
       (match payload.headers with
        | some headers =>
          headers.foldl
            (fun acc h =>
              if lowerStr h.name = "from" ∨ lowerStr h.name = "subject" then
                acc ++ h.value ++ " "
              else acc)
            ""
        | none => "") ++
       (match payload.body with
        | some b =>
          match b.data with
          | some data => data
          | none => ""
        | none => "")
     | none => "")

/-- The ordered pattern list of `detect_bank_from_text`
(src/gmail/attachment.rs:278-336), transcribed verbatim, duplicates and
the leading-space ` fidelity` entry included. -/
def bank_patterns : List String := [
    "wise", "revolut", "nubank", "bunq", "monzo", "starling", "chime",
    "venmo", "paypal", "wise", "transferwise", "wise.com", "revolut.com",
    "nubank.com.br", "santander", "bbva", "caixabank", "ing",
    "deutsche bank", "commerzbank", "hsbc", "barclays", "lloyds", "rbs",
    "natwest", "barclays", "standard chartered", "bnp paribas",
    "societe generale", "credit agricole", "dexia", "fortis", "kbc",
    "rabobank", "abn amro", "ing", "asn", "triodos", "moneco",
    "banco santander", "bbva", "caixa bank", "la caixa", "bankinter",
    "sabadell", "popular", "galicia", "santanderrio", "macro",
    "hipotecario", "provincia", "bcp", "bpi", "caixa geral de depósitos",
    "millennium bcp", "banco espírito santo", "intesa sanpaolo",
    "unicredit", "banco popolare", "monte dei paschi", "mediolanum",
    "societe generale", "bnp paribas", "credit agricole", "lcl", "bpce",
    "caisse d'epargne", "deutsche bank", "commerzbank", "hypovereinsbank",
    "sparkasse", "volksbank", "ing", "rabobank", "abn amro", "asn bank",
    "triodos bank", "moneco bank", "pkobp", "ing", "millennium",
    "bnp paribas", "santander", "bank millennium", "csob", "kb",
    "unicredit", "raiffeisen", "moneta", "fio", "erste bank", "raiffeisen",
    "bank austria", "volksbank", "sparkasse", "ubs", "credit suisse", "zkb",
    "ubs", "postfinance", "raiffeisen", "nordea", "dnb", "handelsbanken",
    "seb", "swedbank", "sampo", "wise", "transferwise", "revolut", "n26",
    "bunq", "monzo", "starling", "tidal", "october", "bunq", "mollie",
    "adyen", "stripe", "paypal", "interactive brokers", "ibkr",
    "charles schwab", "etrade", "td ameritrade", " fidelity", "robinhood",
    "webull", "coinbase", "binance", "kraken", "coinbase pro", "binance us",
    "banco", "banco santander", "banco do brasil", "banco itaú",
    "banco bradesco", "bank", "banco", "financial", "fintech", "fiscal",
    "tributary"]

/-- The `for pattern in bank_patterns` loop of `detect_bank_from_text`:
first pattern (in list order) contained in `text` wins. -/
def detect_bank_from_text_go (text : String) : List String → Option String
  | [] => none
  | p :: rest =>
    if str_contains text (lowerStr p) then some p
    else detect_bank_from_text_go text rest

/-- `detect_bank_from_text` (src/gmail/attachment.rs:276-345). -/
def detect_bank_from_text (text : String) : Option String :=
  detect_bank_from_text_go text bank_patterns

/-- One word of the title-casing in `detect_bank_name`: first character
uppercased, the rest lowercased. -/
def titleCaseWord (w : List Char) : List Char :=
  match w with
  | [] => []
  | c :: rest => Char.toUpper c :: rest.map Char.toLower

/-- Rust `split_whitespace` (space model): split on spaces, drop empties. -/
def split_whitespace (s : String) : List (List Char) :=
  (splitChar ' ' s.toList).filter (fun w => w ≠ [])

/-- The title-casing applied to a matched pattern in `detect_bank_name`
(src/gmail/attachment.rs:232-244). -/
def titleCase (s : String) : String :=
  String.mk (List.intercalate [ ' ' ] ((split_whitespace s).map titleCaseWord))

/-- `detect_bank_name` (src/gmail/attachment.rs:230-245). -/
def detect_bank_name (message : Message) : Option String :=
  (detect_bank_from_text (extract_search_text message)).map titleCase

theorem detect_bank_from_text_go_eq_find (text : String) (l : List String) :
    detect_bank_from_text_go text l =
      l.find? (fun p => str_contains text (lowerStr p)) := by
  induction l with
  | nil => rfl
  | cons p rest ih =>
    cases h : str_contains text (lowerStr p) <;>
      simp [detect_bank_from_text_go, List.find?, h, ih]

/-- A message whose Subject mentions revolut. -/
def msgRevolut : Message :=
  ⟨"m1", some (.mk none none none none
    (some [⟨"Subject", "... revolut ..."⟩]))⟩

/-- A message whose Subject matches no bank pattern. -/
def msgNoMatch : Message :=
  ⟨"m2", some (.mk none none none none
    (some [⟨"Subject", "no match here"⟩]))⟩

/-- C6: bank classification matches the lower-cased header-plus-body text
against the ordered pattern list by case-insensitive substring
containment, first pattern in list order winning, and title-cases the
matched pattern; a message text containing "revolut" (and no earlier
pattern) yields some "Revolut", and a text matching no pattern yields
none. -/
theorem detect_bank_name_spec :
    (∀ message : Message,
      detect_bank_name message =
        (bank_patterns.find?
          (fun p => str_contains (extract_search_text message) (lowerStr p))).map
          titleCase) ∧
    detect_bank_name msgRevolut = some "Revolut" ∧
    detect_bank_name msgNoMatch = none := by
  refine ⟨?_, by decide, by decide⟩
  intro message
  unfold detect_bank_name detect_bank_from_text
  rw [detect_bank_from_text_go_eq_find]

/-! ## `search_invoices` (src/gmail/search.rs:6-39)

The provider call `search_with_query` is abstracted as an `oracle` from
query string to `Except` result; `search_invoices` returns the collected
message ids together with the trace of issued queries.  The Rust function
always returns `Ok` (individual query failures are swallowed), so the
embedding returns the pair directly. -/

/-- The built-in default keyword list (src/gmail/search.rs:14). -/
def default_keywords : List String :=
  ["invoice", "invoices", "fatura", "faturas", "statement", "bank"]

/-- `build_search_query_single` (src/gmail/search.rs:72-83). -/
def build_search_query_single (start_date end_date : Date)
    (keyword : String) : String :=
  keyword ++ " has:attachment after:" ++
    toString start_date.year ++ "/" ++ toString start_date.month ++ "/" ++
    toString start_date.day ++ " before:" ++
    toString end_date.year ++ "/" ++ toString end_date.month ++ "/" ++
    toString end_date.day

/-- `HashSet::insert`: append if absent (iteration order is not
guaranteed by the source either; the claims do not depend on it). -/
def insertUnique (l : List String) (x : String) : List String :=
  if x ∈ l then l else l ++ [x]

/-- One iteration of the `for keyword in &keywords_to_search` loop:
issue the query, merge ids on success, silently skip on failure.  The
state is (collected ids, issued queries). -/
def search_step (oracle : String → Except String (List String))
    (start_date end_date : Date) (st : List String × List String)
    (keyword : String) : List String × List String :=
  let query := build_search_query_single start_date end_date keyword
  match oracle query with
  | .ok message_ids => (message_ids.foldl insertUnique st.1, st.2 ++ [query])
  | .error _ => (st.1, st.2 ++ [query])

/-- `search_invoices` (src/gmail/search.rs:6-39): substitute the default
keywords when the list is empty, then run one query per keyword. -/
def search_invoices (oracle : String → Except String (List String))
    (start_date end_date : Date) (keywords : List String) :
    List String × List String :=
  let keywords_to_search :=
    if keywords = [] then default_keywords else keywords
  keywords_to_search.foldl (search_step oracle start_date end_date) ([], [])

theorem search_loop_trace (oracle : String → Except String (List String))
    (s e : Date) (kws : List String) :
    ∀ st : List String × List String,
      (kws.foldl (search_step oracle s e) st).2 =
        st.2 ++ kws.map (build_search_query_single s e) := by
  induction kws with
  | nil => intro st; simp
  | cons k rest ih =>
    intro st
    rw [List.foldl_cons, ih]
    cases h : oracle (build_search_query_single s e k) <;>
      simp [search_step, h]

/-- C9: called with an empty keyword list, `search_invoices` does not
issue zero queries: it substitutes the built-in default keyword list and
issues exactly one provider query per default keyword, in order. -/
theorem search_invoices_default_keywords
    (oracle : String → Except String (List String)) (s e : Date) :
    (search_invoices oracle s e []).2 =
      default_keywords.map (build_search_query_single s e) ∧
    default_keywords =
      ["invoice", "invoices", "fatura", "faturas", "statement", "bank"] ∧
    (search_invoices oracle s e []).2.length = 6 := by
  have h : (search_invoices oracle s e []).2 =
      default_keywords.map (build_search_query_single s e) := by
    unfold search_invoices
    rw [if_pos rfl, search_loop_trace]
    simp
  exact ⟨h, rfl, by rw [h]; simp [default_keywords]⟩

/-! ## `find_or_create_folder` (src/drive/folder.rs)

The Drive API is modelled by an explicit environment: the folders the
provider knows about.  `find_folder`'s provider query
(`name= and parent in parents and mimeType=folder and trashed=false`,
first hit taken) becomes a filter over that environment; `create_folder`
returns a fresh id drawn from a counter and adds the folder to the
environment.  Every issued call is recorded in a trace. -/

def FOLDER_MIME_TYPE : String := "application/vnd.google-apps.folder"

structure DriveFolder where
  id : String
  name : String
  parent : String
  mimeType : String
  trashed : Bool
deriving DecidableEq, Repr

inductive DriveCall where
  | lookup (name parent : String)
  | create (name parent : String)
deriving DecidableEq, Repr

structure ResolveState where
  env : List DriveFolder
  ctr : Nat
  trace : List DriveCall
deriving DecidableEq, Repr

/-- `find_folder` (src/drive/folder.rs:47-79): first existing child with
matching name, matching parent, folder mime type and not trashed. -/
def find_folder (env : List DriveFolder) (folder_name parent_id : String) :
    Option String :=
  ((env.filter (fun f =>
      f.name == folder_name && f.parent == parent_id &&
        f.mimeType == FOLDER_MIME_TYPE && !f.trashed)).head?).map (fun f => f.id)

/-- Fresh id for a folder created by `create_folder`. -/
def freshFolderId (ctr : Nat) : String := "created-" ++ toString ctr

/-- `find_or_create_single_folder` (src/drive/folder.rs:30-44): look up,
descend if found, else create (src/drive/folder.rs:82-117) and descend
into the new id. -/
def find_or_create_single_folder (st : ResolveState)
    (folder_name parent_id : String) : String × ResolveState :=
  let st1 := { st with trace := st.trace ++ [.lookup folder_name parent_id] }
  match find_folder st1.env folder_name parent_id with
  | some folder_id => (folder_id, st1)
  | none =>
    let nid := freshFolderId st1.ctr
    (nid,
      { env := st1.env ++ [⟨nid, folder_name, parent_id, FOLDER_MIME_TYPE, false⟩],
        ctr := st1.ctr + 1,
        trace := st1.trace ++ [.create folder_name parent_id] })

/-- `find_or_create_folder` (src/drive/folder.rs:7-27): split the path on
`'/'`, drop empty segments, reject an empty path, then fold the segments
starting from the `"root"` container. -/
def find_or_create_folder (st : ResolveState) (folder_path : String) :
    Except String (String × ResolveState) :=
  let parts :=
    ((splitChar '/' folder_path.toList).map String.mk).filter (fun s => s ≠ "")
  if parts = [] then .error "Folder path cannot be empty"
  else
    .ok (parts.foldl
      (fun (acc : String × ResolveState) part =>
        find_or_create_single_folder acc.2 part acc.1)
      ("root", st))

/-- C4: resolving the path "a/b/c" performs lookup-or-create strictly in
order root→a→b→c — each segment's calls are issued against the id the
previous segment produced — and returns the id produced for the final
segment c; a segment whose lookup finds an existing, non-trashed folder
of folder mime type under the current parent is descended into with only
the lookup recorded and no create call issued. -/
theorem find_or_create_folder_abc (st : ResolveState) :
    (find_or_create_folder st "a/b/c" =
      (let s1 := find_or_create_single_folder st "a" "root"
       let s2 := find_or_create_single_folder s1.2 "b" s1.1
       let s3 := find_or_create_single_folder s2.2 "c" s2.1
       .ok (s3.1, s3.2))) ∧
    (∀ (st' : ResolveState) (name parent fid : String),
      find_folder st'.env name parent = some fid →
      find_or_create_single_folder st' name parent =
        (fid, { st' with trace := st'.trace ++ [.lookup name parent] })) := by
  constructor
  · rfl
  · intro st' name parent fid h
    simp only [find_or_create_single_folder]
    rw [h]

/-- Witness for `find_or_create_folder_abc`: with `"a"` already existing
under root, resolving "a/b/c" reuses `"a"` (lookup only) and creates
`"b"` and `"c"`, returning c's id. -/
theorem find_or_create_folder_abc_witness :
    find_or_create_folder ⟨[⟨"idA", "a", "root", FOLDER_MIME_TYPE, false⟩], 0, []⟩
        "a/b/c" =
      .ok ("created-1",
        { env := [⟨"idA", "a", "root", FOLDER_MIME_TYPE, false⟩,
                  ⟨"created-0", "b", "idA", FOLDER_MIME_TYPE, false⟩,
                  ⟨"created-1", "c", "created-0", FOLDER_MIME_TYPE, false⟩],
          ctr := 2,
          trace := [.lookup "a" "root", .lookup "b" "idA", .create "b" "idA",
                    .lookup "c" "created-0", .create "c" "created-0"] }) := by
  rw [(find_or_create_folder_abc
    ⟨[⟨"idA", "a", "root", FOLDER_MIME_TYPE, false⟩], 0, []⟩).1]
  rfl

/-! ## `upload_files` (src/drive/upload.rs:119-141)

The per-file call `upload_file` (duplicate probe plus multipart POST,
src/drive/upload.rs:8-75) is abstracted as an oracle from file path to
`Except` result; `upload_files` iterates it, logging failures and never
propagating them.  `UploadSummary` is transcribed exactly as declared in
the source (src/drive/upload.rs:140-141): an empty struct with no
fields. -/

structure UploadedFile where
  id : String
  name : String
deriving DecidableEq, Repr

/-- `pub struct UploadSummary {}` (src/drive/upload.rs:140-141): the
source declares no fields, in particular no uploaded/failed counts. -/
structure UploadSummary where
deriving DecidableEq, Repr

/-- `upload_files` (src/drive/upload.rs:120-138): each file's upload
result is matched; an error is sent to the log channel and the loop
continues; the function returns `Ok(UploadSummary {})`. -/
def upload_files (upload_file_result : String → Except String UploadedFile)
    (file_paths : List String) : Except String UploadSummary × List String :=
  let step := fun (log : List String) (file_path : String) =>
    match upload_file_result file_path with
    | .ok _ => log
    | .error e => log ++ ["Failed to upload " ++ file_path ++ ": " ++ e]
  (.ok ⟨⟩, file_paths.foldl step [])

/-- C3 (what the code actually does at the claim's failing input): the
batch loop catches every per-file error and never aborts — the result is
always `Ok` — but the returned `UploadSummary` is an empty structure: any
two summaries are equal, so it cannot carry the aggregated uploaded and
failed counts the claim describes; at the concrete failing batch
["a.pdf", "b.pdf"] with "a.pdf" failing, the failure is logged, "b.pdf"
is still processed, and the summary returned is the empty one. -/
theorem upload_files_summary_carries_no_counts :
    (∀ (res : String → Except String UploadedFile) (paths : List String),
      (upload_files res paths).1 = .ok ⟨⟩) ∧
    (∀ s s' : UploadSummary, s = s') ∧
    upload_files
        (fun fp =>
          if fp = "a.pdf" then .error "Drive API error (500): boom"
          else .ok ⟨"id1", fp⟩)
        ["a.pdf", "b.pdf"] =
      (.ok ⟨⟩, ["Failed to upload a.pdf: Drive API error (500): boom"]) := by
  refine ⟨fun res paths => rfl, fun s s' => rfl, by rfl⟩

/-! ## Base64 decode fallback chain (src/gmail/attachment.rs:201-213)

`download_attachment` decodes the provider blob trying, in order,
URL-safe-no-padding base64, URL-safe base64, standard base64, and
standard base64 after substituting `-`→`+` and `_`→`/`.  The `base64`
crate engines used (`BASE64_URL_SAFE_NO_PAD`, `BASE64_URL_SAFE`,
`BASE64_STANDARD`) are external collaborators; they are embedded by
RFC 4648 encoders/decoders with the crate's default strictness: canonical
padding required (none allowed in the no-pad engine) and non-zero
trailing bits rejected.  Bytes are `Nat`s below 256. -/

def STD_ALPHABET : List Char :=
  "ABCDEFGHIJKLMNOPQRSTUVWXYZabcdefghijklmnopqrstuvwxyz0123456789+/".toList

def URL_ALPHABET : List Char :=
  "ABCDEFGHIJKLMNOPQRSTUVWXYZabcdefghijklmnopqrstuvwxyz0123456789-_".toList

/-- Character of a six-bit value in the standard alphabet. -/
def stdChar (n : Nat) : Char := STD_ALPHABET.getD n 'A'

/-- Six-bit value of a character, `none` when outside the alphabet. -/
def alphaIndex (alpha : List Char) (c : Char) : Option Nat :=
  alpha.findIdx? (fun a => a == c)

def stdAlphaIndex (c : Char) : Option Nat := alphaIndex STD_ALPHABET c

def urlAlphaIndex (c : Char) : Option Nat := alphaIndex URL_ALPHABET c

/-- The claim's transformation: `+`→`-` and `/`→`_`. -/
def substUrlChar (c : Char) : Char :=
  if c = '+' then '-' else if c = '/' then '_' else c

/-- The code's fourth-fallback substitution: `-`→`+` and `_`→`/`
(src/gmail/attachment.rs:208). -/
def substStdChar (c : Char) : Char :=
  if c = '-' then '+' else if c = '_' then '/' else c

/-- Standard base64 encoding with padding (RFC 4648 §4). -/
def encodeStd : List Nat → List Char
  | [] => []
  | [b1] => [stdChar (b1 / 4), stdChar (b1 % 4 * 16), '=', '=']
  | [b1, b2] =>
    [stdChar (b1 / 4), stdChar (b1 % 4 * 16 + b2 / 16),
      stdChar (b2 % 16 * 4), '=']
  | b1 :: b2 :: b3 :: rest =>
    [stdChar (b1 / 4), stdChar (b1 % 4 * 16 + b2 / 16),
      stdChar (b2 % 16 * 4 + b3 / 64), stdChar (b3 % 64)] ++ encodeStd rest

/-- Padded base64 decoding over a given alphabet: groups of four, `=`
allowed only at the end of the final group, non-zero trailing bits
rejected (the crate's default `RequireCanonical` behavior). -/
def decodePadded (alpha : Char → Option Nat) : List Char → Option (List Nat)
  | [] => some []
  | c1 :: c2 :: c3 :: c4 :: rest =>
    match alpha c1, alpha c2 with
    | some s1, some s2 =>
      if c3 = '=' then
        if c4 = '=' ∧ rest = [] ∧ s2 % 16 = 0 then
          some [s1 * 4 + s2 / 16]
        else none
      else
        match alpha c3 with
        | some s3 =>
          if c4 = '=' then
            if rest = [] ∧ s3 % 4 = 0 then
              some [s1 * 4 + s2 / 16, s2 % 16 * 16 + s3 / 4]
            else none
          else
            match alpha c4 with
            | some s4 =>
              match decodePadded alpha rest with
              | some bs =>
                some ([s1 * 4 + s2 / 16, s2 % 16 * 16 + s3 / 4,
                  s3 % 4 * 64 + s4] ++ bs)
              | none => none
            | none => none
        | none => none
    | _, _ => none
  | _ => none

/-- Unpadded base64 decoding over a given alphabet: full groups of four
with a final group of two or three characters; `=` is not in any
alphabet, so padded input is rejected. -/
def decodeNoPad (alpha : Char → Option Nat) : List Char → Option (List Nat)
  | [] => some []
  | [_] => none
  | [c1, c2] =>
    match alpha c1, alpha c2 with
    | some s1, some s2 =>
      if s2 % 16 = 0 then some [s1 * 4 + s2 / 16] else none
    | _, _ => none
  | [c1, c2, c3] =>
    match alpha c1, alpha c2, alpha c3 with
    | some s1, some s2, some s3 =>
      if s3 % 4 = 0 then
        some [s1 * 4 + s2 / 16, s2 % 16 * 16 + s3 / 4]
      else none
    | _, _, _ => none
  | c1 :: c2 :: c3 :: c4 :: rest =>
    match alpha c1, alpha c2, alpha c3, alpha c4 with
    | some s1, some s2, some s3, some s4 =>
      match decodeNoPad alpha rest with
      | some bs =>
        some ([s1 * 4 + s2 / 16, s2 % 16 * 16 + s3 / 4,
          s3 % 4 * 64 + s4] ++ bs)
      | none => none
    | _, _, _, _ => none

/-- The decode fallback chain of `download_attachment`
(src/gmail/attachment.rs:203-211). -/
def decode_attachment_data (data : List Char) : Option (List Nat) :=
  match decodeNoPad urlAlphaIndex data with
  | some bs => some bs
  | none =>
    match decodePadded urlAlphaIndex data with
    | some bs => some bs
    | none =>
      match decodePadded stdAlphaIndex data with
      | some bs => some bs
      | none => decodePadded stdAlphaIndex (data.map substStdChar)

theorem urlIndex_substUrl_stdChar :
    ∀ n < 64, urlAlphaIndex (substUrlChar (stdChar n)) = some n := by
  decide

theorem substUrl_stdChar_ne_pad :
    ∀ n < 64, substUrlChar (stdChar n) ≠ '=' := by
  decide

theorem urlAlphaIndex_pad : urlAlphaIndex '=' = none := by
  decide

theorem substUrlChar_pad : substUrlChar '=' = '=' := by
  decide

theorem decodePadded_url_encodeStd :
    ∀ bs : List Nat, (∀ b ∈ bs, b < 256) →
      decodePadded urlAlphaIndex ((encodeStd bs).map substUrlChar) = some bs := by
  intro bs
  induction bs using encodeStd.induct with
  | case1 => intro _; rfl
  | case2 b1 =>
    intro h
    have hb1 : b1 < 256 := h b1 (by simp)
    have i1 := urlIndex_substUrl_stdChar (b1 / 4) (by omega)
    have i2 := urlIndex_substUrl_stdChar (b1 % 4 * 16) (by omega)
    have e1 : b1 / 4 * 4 + b1 % 4 * 16 / 16 = b1 := by omega
    have e2 : b1 % 4 * 16 % 16 = 0 := by omega
    simp only [encodeStd, List.map_cons, List.map_nil, substUrlChar_pad,
      decodePadded, i1, i2]
    simp [e1, e2]
    omega
  | case3 b1 b2 =>
    intro h
    have hb1 : b1 < 256 := h b1 (by simp)
    have hb2 : b2 < 256 := h b2 (by simp)
    have i1 := urlIndex_substUrl_stdChar (b1 / 4) (by omega)
    have i2 := urlIndex_substUrl_stdChar (b1 % 4 * 16 + b2 / 16) (by omega)
    have i3 := urlIndex_substUrl_stdChar (b2 % 16 * 4) (by omega)
    have hne3 := substUrl_stdChar_ne_pad (b2 % 16 * 4) (by omega)
    have e1 : b1 / 4 * 4 + (b1 % 4 * 16 + b2 / 16) / 16 = b1 := by omega
    have e2 : (b1 % 4 * 16 + b2 / 16) % 16 * 16 + b2 % 16 * 4 / 4 = b2 := by
      omega
    have e3 : b2 % 16 * 4 % 4 = 0 := by omega
    simp only [encodeStd, List.map_cons, List.map_nil, substUrlChar_pad,
      decodePadded, i1, i2, i3]
    simp [hne3, e1, e2, e3]
    omega
  | case4 b1 b2 b3 rest ih =>
    intro h
    have hb1 : b1 < 256 := h b1 (by simp)
    have hb2 : b2 < 256 := h b2 (by simp)
    have hb3 : b3 < 256 := h b3 (by simp)
    have hrest : ∀ b ∈ rest, b < 256 := fun b hb => h b (by simp [hb])
    have i1 := urlIndex_substUrl_stdChar (b1 / 4) (by omega)
    have i2 := urlIndex_substUrl_stdChar (b1 % 4 * 16 + b2 / 16) (by omega)
    have i3 := urlIndex_substUrl_stdChar (b2 % 16 * 4 + b3 / 64) (by omega)
    have i4 := urlIndex_substUrl_stdChar (b3 % 64) (by omega)
    have hne3 := substUrl_stdChar_ne_pad (b2 % 16 * 4 + b3 / 64) (by omega)
    have hne4 := substUrl_stdChar_ne_pad (b3 % 64) (by omega)
    have e1 : b1 / 4 * 4 + (b1 % 4 * 16 + b2 / 16) / 16 = b1 := by omega
    have e2 : (b1 % 4 * 16 + b2 / 16) % 16 * 16 + (b2 % 16 * 4 + b3 / 64) / 4
        = b2 := by omega
    have e3 : (b2 % 16 * 4 + b3 / 64) % 4 * 64 + b3 % 64 = b3 := by omega
    simp only [encodeStd, List.cons_append, List.nil_append, List.map_cons,
      decodePadded, i1, i2, i3, i4]
    simp [hne3, hne4, ih hrest, e1, e2, e3]

theorem decodeNoPad_url_encodeStd :
    ∀ bs : List Nat, (∀ b ∈ bs, b < 256) → bs.length % 3 = 0 →
      decodeNoPad urlAlphaIndex ((encodeStd bs).map substUrlChar) = some bs := by
  intro bs
  induction bs using encodeStd.induct with
  | case1 => intro _ _; rfl
  | case2 b1 => intro _ h3; simp at h3
  | case3 b1 b2 => intro _ h3; simp at h3
  | case4 b1 b2 b3 rest ih =>
    intro h h3
    have hb1 : b1 < 256 := h b1 (by simp)
    have hb2 : b2 < 256 := h b2 (by simp)
    have hb3 : b3 < 256 := h b3 (by simp)
    have hrest : ∀ b ∈ rest, b < 256 := fun b hb => h b (by simp [hb])
    have hr3 : rest.length % 3 = 0 := by simp [List.length_cons] at h3; omega
    have i1 := urlIndex_substUrl_stdChar (b1 / 4) (by omega)
    have i2 := urlIndex_substUrl_stdChar (b1 % 4 * 16 + b2 / 16) (by omega)
    have i3 := urlIndex_substUrl_stdChar (b2 % 16 * 4 + b3 / 64) (by omega)
    have i4 := urlIndex_substUrl_stdChar (b3 % 64) (by omega)
    have e1 : b1 / 4 * 4 + (b1 % 4 * 16 + b2 / 16) / 16 = b1 := by omega
    have e2 : (b1 % 4 * 16 + b2 / 16) % 16 * 16 + (b2 % 16 * 4 + b3 / 64) / 4
        = b2 := by omega
    have e3 : (b2 % 16 * 4 + b3 / 64) % 4 * 64 + b3 % 64 = b3 := by omega
    simp only [encodeStd, List.cons_append, List.nil_append, List.map_cons,
      decodeNoPad, i1, i2, i3, i4]
    simp [ih hrest hr3, e1, e2, e3]

theorem decodeNoPad_url_encodeStd_none :
    ∀ bs : List Nat, (∀ b ∈ bs, b < 256) → bs.length % 3 ≠ 0 →
      decodeNoPad urlAlphaIndex ((encodeStd bs).map substUrlChar) = none := by
  intro bs
  induction bs using encodeStd.induct with
  | case1 => intro _ h3; simp at h3
  | case2 b1 =>
    intro h _
    have hb1 : b1 < 256 := h b1 (by simp)
    have i1 := urlIndex_substUrl_stdChar (b1 / 4) (by omega)
    have i2 := urlIndex_substUrl_stdChar (b1 % 4 * 16) (by omega)
    simp only [encodeStd, List.map_cons, List.map_nil, substUrlChar_pad,
      decodeNoPad, i1, i2, urlAlphaIndex_pad]
  | case3 b1 b2 =>
    intro h _
    have hb1 : b1 < 256 := h b1 (by simp)
    have hb2 : b2 < 256 := h b2 (by simp)
    have i1 := urlIndex_substUrl_stdChar (b1 / 4) (by omega)
    have i2 := urlIndex_substUrl_stdChar (b1 % 4 * 16 + b2 / 16) (by omega)
    have i3 := urlIndex_substUrl_stdChar (b2 % 16 * 4) (by omega)
    simp only [encodeStd, List.map_cons, List.map_nil, substUrlChar_pad,
      decodeNoPad, i1, i2, i3, urlAlphaIndex_pad]
  | case4 b1 b2 b3 rest ih =>
    intro h h3
    have hb1 : b1 < 256 := h b1 (by simp)
    have hb2 : b2 < 256 := h b2 (by simp)
    have hb3 : b3 < 256 := h b3 (by simp)
    have hrest : ∀ b ∈ rest, b < 256 := fun b hb => h b (by simp [hb])
    have hr3 : rest.length % 3 ≠ 0 := by
      simp [List.length_cons] at h3 ⊢; omega
    have i1 := urlIndex_substUrl_stdChar (b1 / 4) (by omega)
    have i2 := urlIndex_substUrl_stdChar (b1 % 4 * 16 + b2 / 16) (by omega)
    have i3 := urlIndex_substUrl_stdChar (b2 % 16 * 4 + b3 / 64) (by omega)
    have i4 := urlIndex_substUrl_stdChar (b3 % 64) (by omega)
    simp only [encodeStd, List.cons_append, List.nil_append, List.map_cons,
      decodeNoPad, i1, i2, i3, i4]
    simp [ih hrest hr3]

/-- C7: for every byte sequence, the standard base64 encoding with every
`+` replaced by `-` and every `/` replaced by `_` still decodes back to
the original bytes through the fallback chain of `download_attachment`. -/
theorem decode_chain_round_trip (bs : List Nat) (h : ∀ b ∈ bs, b < 256) :
    decode_attachment_data ((encodeStd bs).map substUrlChar) = some bs := by
  unfold decode_attachment_data
  by_cases h3 : bs.length % 3 = 0
  · rw [decodeNoPad_url_encodeStd bs h h3]
  · rw [decodeNoPad_url_encodeStd_none bs h h3,
      decodePadded_url_encodeStd bs h]

/-- Witness for `decode_chain_round_trip` at the two-byte input
[77, 97], whose encoding carries padding. -/
theorem decode_chain_round_trip_witness :
    decode_attachment_data ((encodeStd [77, 97]).map substUrlChar) =
      some [77, 97] :=
  decode_chain_round_trip [77, 97] (by decide)
